import Mathlib

/-!
Shallow embedding of `openpgp-parser/src/packet.rs`: the OpenPGP packet
framing codec (variable-length body reader, old/new-format packet decoder,
and encoder).  Bytes are modelled as `Nat` values below 256; the borrowed
content slices of the Rust code are modelled as `List Nat`.  The mutable
`Reader` cursor is modelled by explicit state passing: every operation
returns a `PResult`, which carries the reader state both on success and on
failure (matching Rust `&mut Reader` semantics, where the cursor position
persists across an `Err` return).
-/

namespace OpenPGP

/-- The error type of the crate, restricted to the variants that
`packet.rs` produces: `PrematureEOF` (the `Reader` ran out of bytes),
`PartialLength` (unsupported partial/indefinite length forms),
`PacketFirstBitZero` (tag byte with bit 7 clear) and `BadTag`
(decoded tag is zero). -/
inductive Error where
  | PrematureEOF
  | PartialLength
  | PacketFirstBitZero
  | BadTag
deriving Repr, DecidableEq

/-- Modelled from the spec: the `Reader` collaborator is a sequential
cursor over an immutable byte slice; we keep only the unconsumed suffix. -/
structure Reader where
  data : List Nat
deriving Repr, DecidableEq

/-- Result of an operation on a mutable `Reader`: the value or the error,
together with the reader state afterwards. -/
inductive PResult (α : Type) where
  | ok : α → Reader → PResult α
  | err : Error → Reader → PResult α
deriving Repr, DecidableEq

/-- Modelled from the spec: `remaining_length()` - bytes left unconsumed. -/
def Reader.len (r : Reader) : Nat := r.data.length

/-- Modelled from the spec: `maybe_byte()` - non-failing peek-and-consume,
returning nothing only at true end of input. -/
def Reader.maybe_byte (r : Reader) : Option (Nat × Reader) :=
  match r.data with
  | [] => none
  | b :: rest => some (b, ⟨rest⟩)

/-- Modelled from the spec: `byte()` - consume one byte, failing (without
consuming) if none remains. -/
def Reader.byte (r : Reader) : PResult Nat :=
  match r.data with
  | [] => .err .PrematureEOF r
  | b :: rest => .ok b ⟨rest⟩

/-- Modelled from the spec: `get_bytes(n)` - consume exactly `n` bytes or
fail without observable partial consumption. -/
def Reader.get_bytes (r : Reader) (n : Nat) : PResult (List Nat) :=
  if n ≤ r.data.length then .ok (r.data.take n) ⟨r.data.drop n⟩
  else .err .PrematureEOF r

/-- Modelled from the spec: `be_u32()` - consume 4 bytes as an unsigned
big-endian integer, or fail without consuming. -/
def Reader.be_u32 (r : Reader) : PResult Nat :=
  match r.get_bytes 4 with
  | .ok bs r1 => .ok (bs.foldl (fun acc b => acc * 256 + b) 0) r1
  | .err e r1 => .err e r1

/-- An OpenPGP packet: `tag` plus borrowed content `buffer`
(from `struct Packet` in `packet.rs`). -/
structure Packet where
  tag : Nat
  buffer : List Nat
deriving Repr, DecidableEq

/-- `Packet::contents` from `packet.rs`. -/
def Packet.contents (p : Packet) : List Nat := p.buffer

/-- `get_varlen_bytes` from `packet.rs`: read a new-format length field
(one keybyte, then 0, 1 or 4 further bytes by its range) and return that
many content bytes. -/
def get_varlen_bytes (r : Reader) : PResult (List Nat) :=
  match r.byte with
  | .err e r1 => .err e r1
  | .ok keybyte r1 =>
    if keybyte ≤ 191 then
      r1.get_bytes keybyte
    else if keybyte ≤ 223 then
      match r1.byte with
      | .err e r2 => .err e r2
      | .ok b r2 => r2.get_bytes (((keybyte - 192) <<< 8) + b + 192)
    else if keybyte = 255 then
      match r1.be_u32 with
      | .err e r2 => .err e r2
      | .ok len r2 => r2.get_bytes len
    else
      -- Partial lengths are deliberately unsupported.
      .err .PartialLength r1

/-- The old-format branch of `next` in `packet.rs`: `tagbyte & 0x40 == 0`.
`lenlen = 1 << (tagbyte & 0b11)` bytes of big-endian length, then the
content; the 8-byte selector (`lenlen > 4`) is rejected. -/
def oldFormatBody (tagbyte : Nat) (r : Reader) : PResult Packet :=
  let lenlen := 1 <<< (tagbyte &&& 0b11)
  if 4 < lenlen then .err .PartialLength r
  else
    match r.get_bytes lenlen with
    | .err e r1 => .err e r1
    | .ok lenBytes r1 =>
      let len := lenBytes.foldl (fun len i => len <<< 8 ||| i) 0
      match r1.get_bytes len with
      | .err e r2 => .err e r2
      | .ok buf r2 => .ok ⟨0xF &&& (tagbyte >>> 2), buf⟩ r2

/-- The new-format branch of `next` in `packet.rs`: content via
`get_varlen_bytes`, tag is the low 6 bits of the tag byte. -/
def newFormatBody (tagbyte : Nat) (r : Reader) : PResult Packet :=
  match get_varlen_bytes r with
  | .err e r1 => .err e r1
  | .ok buf r1 => .ok ⟨tagbyte &&& 0x3F, buf⟩ r1

/-- `next` from `packet.rs`: read one packet.  `.ok none` on an exhausted
reader, `.ok (some packet)` on success, `.err` otherwise. -/
def next (r : Reader) : PResult (Option Packet) :=
  match r.maybe_byte with
  | none => .ok none r
  | some (tagbyte, r0) =>
    if tagbyte &&& 0x80 = 0 then .err .PacketFirstBitZero r0
    else
      match (if tagbyte &&& 0x40 = 0
             then oldFormatBody tagbyte r0
             else newFormatBody tagbyte r0) with
      | .err e r1 => .err e r1
      | .ok packet r1 =>
        if packet.tag ≠ 0 then .ok (some packet) r1 else .err .BadTag r1

/-- `Packet::serialize` from `packet.rs`.  The leading
`assert!(u32::max_value() as u64 >= len as u64)` is modelled by returning
`none` exactly when the assertion would fire.  `as u8` casts are `% 256`. -/
def Packet.serialize (p : Packet) : Option (List Nat) :=
  let len := p.buffer.length
  if 2 ^ 32 - 1 < len then none
  else
    let tag_byte := p.tag ||| 0b11000000
    let header : List Nat :=
      if len ≤ 191 then
        [tag_byte, len % 256]
      else if len ≤ 8383 then
        let l := len - 192
        [tag_byte, ((l >>> 8) % 256 + 192) % 256, l % 256]
      else
        [tag_byte, 0xFF, (len >>> 24) % 256, (len >>> 16) % 256,
         (len >>> 8) % 256, len % 256]
    some (header ++ p.buffer)

/-! ### Helper lemmas -/

/-- The accumulator step of the old-format length fold: for a byte `b`,
`a <<< 8 ||| b` is plain arithmetic `a * 256 + b`. -/
lemma shiftOr_eq_add (a b : Nat) (hb : b < 256) : a <<< 8 ||| b = a * 256 + b := by
  have hb2 : b < 2 ^ 8 := by omega
  calc a <<< 8 ||| b = 2 ^ 8 * a ||| b := by rw [Nat.shiftLeft_eq, Nat.mul_comm]
    _ = 2 ^ 8 * a + b := (Nat.mul_add_lt_is_or hb2 a).symm
    _ = a * 256 + b := by norm_num [Nat.mul_comm]

/-- On byte lists, the code's shift-or fold agrees with the big-endian
base-256 fold. -/
lemma beFold_eq (bs : List Nat) (hb : ∀ b ∈ bs, b < 256) (a : Nat) :
    bs.foldl (fun len i => len <<< 8 ||| i) a =
      bs.foldl (fun acc b => acc * 256 + b) a := by
  induction bs generalizing a with
  | nil => rfl
  | cons x xs ih =>
    simp only [List.foldl_cons]
    rw [shiftOr_eq_add a x (hb x (by simp))]
    exact ih (fun b h => hb b (by simp [h])) _

/-- `get_bytes` on a reader holding `content ++ rest`, asked for exactly
`content.length` bytes, returns `content` and leaves `rest`. -/
lemma get_bytes_append (content rest : List Nat) (n : Nat)
    (h : content.length = n) :
    Reader.get_bytes ⟨content ++ rest⟩ n = .ok content ⟨rest⟩ := by
  have hle : n ≤ content.length + rest.length := by omega
  simp [Reader.get_bytes, List.length_append, hle, List.take_left' h,
    List.drop_left' h]

/-- `get_bytes` fails without consuming when fewer than `n` bytes remain. -/
lemma get_bytes_short (data : List Nat) (n : Nat) (h : data.length < n) :
    Reader.get_bytes ⟨data⟩ n = .err .PrematureEOF ⟨data⟩ := by
  simp [Reader.get_bytes]
  omega

/-- One-byte length form of `get_varlen_bytes`. -/
lemma gv_ok_one (k : Nat) (content rest : List Nat) (hk : k ≤ 191)
    (h : content.length = k) :
    get_varlen_bytes ⟨k :: (content ++ rest)⟩ = .ok content ⟨rest⟩ := by
  simp [get_varlen_bytes, Reader.byte, hk, get_bytes_append content rest k h]

/-- Two-byte length form of `get_varlen_bytes`. -/
lemma gv_ok_two (k b : Nat) (content rest : List Nat) (hk1 : 192 ≤ k)
    (hk2 : k ≤ 223) (h : content.length = ((k - 192) <<< 8) + b + 192) :
    get_varlen_bytes ⟨k :: b :: (content ++ rest)⟩ = .ok content ⟨rest⟩ := by
  have hk3 : ¬ k ≤ 191 := by omega
  simp [get_varlen_bytes, Reader.byte, hk3, hk2,
    get_bytes_append content rest _ h]

/-- Five-byte length form of `get_varlen_bytes`. -/
lemma gv_ok_five (b0 b1 b2 b3 : Nat) (content rest : List Nat)
    (h : content.length = ((b0 * 256 + b1) * 256 + b2) * 256 + b3) :
    get_varlen_bytes ⟨255 :: b0 :: b1 :: b2 :: b3 :: (content ++ rest)⟩ =
      .ok content ⟨rest⟩ := by
  have hb : Reader.be_u32 ⟨b0 :: b1 :: b2 :: b3 :: (content ++ rest)⟩ =
      .ok (((b0 * 256 + b1) * 256 + b2) * 256 + b3) ⟨content ++ rest⟩ := by
    have : Reader.get_bytes ⟨[b0, b1, b2, b3] ++ (content ++ rest)⟩ 4 =
        .ok [b0, b1, b2, b3] ⟨content ++ rest⟩ :=
      get_bytes_append [b0, b1, b2, b3] (content ++ rest) 4 rfl
    simp only [List.cons_append, List.nil_append] at this
    simp [Reader.be_u32, this, List.foldl]
  simp [get_varlen_bytes, Reader.byte, hb, get_bytes_append content rest _ h]

/-- Keybytes 224-254 make `get_varlen_bytes` fail with `PartialLength`,
consuming only the keybyte. -/
lemma gv_partial (k : Nat) (rest : List Nat) (hk1 : 224 ≤ k) (hk2 : k ≤ 254) :
    get_varlen_bytes ⟨k :: rest⟩ = .err .PartialLength ⟨rest⟩ := by
  have h1 : ¬ k ≤ 191 := by omega
  have h2 : ¬ k ≤ 223 := by omega
  have h3 : k ≠ 255 := by omega
  simp [get_varlen_bytes, Reader.byte, h1, h2, h3]

/-- Masking with `0xFF` is reduction mod 256. -/
lemma and255_eq_mod (a : Nat) : a &&& 255 = a % 256 := by
  have h := Nat.and_pow_two_sub_one_eq_mod a 8
  norm_num at h
  exact h

/-- Masking with `0b11` is reduction mod 4. -/
lemma and3_lt (a : Nat) : a &&& 3 < 4 := by
  have h := Nat.and_pow_two_sub_one_eq_mod a 2
  norm_num at h
  omega

/-- A 6-bit value is fixed by the 6-bit mask. -/
lemma and63_of_lt (a : Nat) (h : a < 64) : a &&& 63 = a := by
  have h6 := Nat.and_pow_two_sub_one_eq_mod a 6
  norm_num at h6
  rw [h6]
  omega

lemma shiftRight8_eq (a : Nat) : a >>> 8 = a / 256 := by
  rw [Nat.shiftRight_eq_div_pow]

lemma shiftRight16_eq (a : Nat) : a >>> 16 = a / 65536 := by
  rw [Nat.shiftRight_eq_div_pow]

lemma shiftRight24_eq (a : Nat) : a >>> 24 = a / 16777216 := by
  rw [Nat.shiftRight_eq_div_pow]

lemma shiftLeft8_eq (a : Nat) : a <<< 8 = a * 256 := by
  rw [Nat.shiftLeft_eq]

/-- Unfolding of `next` on a non-empty reader whose tag byte has bit 7
set: the result is the format-dispatched body followed by the zero-tag
check. -/
lemma next_cons (tagbyte : Nat) (data : List Nat)
    (h80 : ¬ tagbyte &&& 0x80 = 0) :
    next ⟨tagbyte :: data⟩ =
      match (if tagbyte &&& 0x40 = 0
             then oldFormatBody tagbyte ⟨data⟩
             else newFormatBody tagbyte ⟨data⟩) with
      | .err e r1 => .err e r1
      | .ok packet r1 =>
        if packet.tag ≠ 0 then .ok (some packet) r1
        else .err .BadTag r1 := by
  simp only [next, Reader.maybe_byte, if_neg h80]

/-- Successful old-format body decode: the length-field bytes and exactly
the declared number of content bytes are consumed, and the tag is the
4-bit field of the tag byte. -/
lemma oldBody_ok (tagbyte : Nat) (lenBytes content rest : List Nat)
    (h3 : tagbyte &&& 0b11 ≠ 3)
    (hlen : lenBytes.length = 1 <<< (tagbyte &&& 0b11))
    (hbytes : ∀ b ∈ lenBytes, b < 256)
    (hcontent : content.length = lenBytes.foldl (fun acc b => acc * 256 + b) 0) :
    oldFormatBody tagbyte ⟨lenBytes ++ (content ++ rest)⟩ =
      .ok ⟨0xF &&& (tagbyte >>> 2), content⟩ ⟨rest⟩ := by
  have h4 : ¬ 4 < 1 <<< (tagbyte &&& 3) := by
    have hall : ∀ c < 4, c ≠ 3 → ¬ 4 < 1 <<< c := by decide
    exact hall _ (and3_lt tagbyte) h3
  simp only [oldFormatBody, if_neg h4,
    get_bytes_append lenBytes (content ++ rest) _ hlen,
    beFold_eq lenBytes hbytes 0,
    get_bytes_append content rest _ hcontent]

/-- The old-format 8-byte/indefinite selector makes the body fail with
`PartialLength` without consuming anything. -/
lemma oldBody_partial (tagbyte : Nat) (r : Reader)
    (h3 : tagbyte &&& 0b11 = 3) :
    oldFormatBody tagbyte r = .err .PartialLength r := by
  have h4 : 4 < 1 <<< (tagbyte &&& 3) := by rw [h3]; decide
  simp only [oldFormatBody, if_pos h4]

/-- Any packet produced by either format body has a 6-bit tag. -/
lemma body_tag_le (tagbyte : Nat) (r r1 : Reader) (p : Packet)
    (h : (if tagbyte &&& 0x40 = 0
          then oldFormatBody tagbyte r
          else newFormatBody tagbyte r) = .ok p r1) :
    p.tag ≤ 63 := by
  by_cases h40 : tagbyte &&& 0x40 = 0
  · rw [if_pos h40] at h
    simp only [oldFormatBody] at h
    split at h
    · exact absurd h (by simp)
    · split at h
      · exact absurd h (by simp)
      · split at h
        · exact absurd h (by simp)
        · injection h with hp hr
          rw [← hp]
          show 0xF &&& (tagbyte >>> 2) ≤ 63
          exact le_trans Nat.and_le_left (by norm_num)
  · rw [if_neg h40] at h
    simp only [newFormatBody] at h
    split at h
    · exact absurd h (by simp)
    · injection h with hp hr
      rw [← hp]
      exact Nat.and_le_right

/-! ### Claim theorems -/

/-- C2: `get_varlen_bytes` reads one keybyte and computes the content
length as the keybyte itself for 0-191 (no further length bytes),
`((keybyte-192)<<<8) + next_byte + 192` for 192-223 (one further byte),
the next 4 bytes as an unsigned big-endian integer for 255, and fails
with the partial-body-length error for 224-254 before consuming content;
on success it consumes exactly the computed content length and returns
that slice, and any shortfall of keybyte, continuation bytes or content
propagates the truncation failure. -/
theorem get_varlen_bytes_spec :
    (∀ (k : Nat) (content rest : List Nat), k ≤ 191 → content.length = k →
      get_varlen_bytes ⟨k :: (content ++ rest)⟩ = .ok content ⟨rest⟩) ∧
    (∀ (k b : Nat) (content rest : List Nat), 192 ≤ k → k ≤ 223 →
      content.length = ((k - 192) <<< 8) + b + 192 →
      get_varlen_bytes ⟨k :: b :: (content ++ rest)⟩ = .ok content ⟨rest⟩) ∧
    (∀ (b0 b1 b2 b3 : Nat) (content rest : List Nat),
      content.length = ((b0 * 256 + b1) * 256 + b2) * 256 + b3 →
      get_varlen_bytes ⟨255 :: b0 :: b1 :: b2 :: b3 :: (content ++ rest)⟩ =
        .ok content ⟨rest⟩) ∧
    (∀ (k : Nat) (rest : List Nat), 224 ≤ k → k ≤ 254 →
      get_varlen_bytes ⟨k :: rest⟩ = .err .PartialLength ⟨rest⟩) ∧
    (get_varlen_bytes ⟨[]⟩ = .err .PrematureEOF ⟨[]⟩) ∧
    (∀ (k : Nat), 192 ≤ k → k ≤ 223 →
      get_varlen_bytes ⟨[k]⟩ = .err .PrematureEOF ⟨[]⟩) ∧
    (∀ (data : List Nat), data.length < 4 →
      get_varlen_bytes ⟨255 :: data⟩ = .err .PrematureEOF ⟨data⟩) ∧
    (∀ (k : Nat) (data : List Nat), k ≤ 191 → data.length < k →
      get_varlen_bytes ⟨k :: data⟩ = .err .PrematureEOF ⟨data⟩) := by
  refine ⟨gv_ok_one, gv_ok_two, gv_ok_five, gv_partial, by decide, ?_, ?_, ?_⟩
  · intro k hk1 hk2
    have hk3 : ¬ k ≤ 191 := by omega
    simp [get_varlen_bytes, Reader.byte, hk3, hk2]
  · intro data h
    simp [get_varlen_bytes, Reader.byte, Reader.be_u32,
      get_bytes_short data 4 h]
  · intro k data hk h
    simp [get_varlen_bytes, Reader.byte, hk, get_bytes_short data k h]

/-- Witness for C2: the length regimes and failure cases of
`get_varlen_bytes` evaluated at concrete inputs. -/
theorem get_varlen_bytes_spec_witness :
    get_varlen_bytes ⟨3 :: ([7, 8, 9] ++ [1])⟩ = .ok [7, 8, 9] ⟨[1]⟩ ∧
    get_varlen_bytes ⟨192 :: 0 :: (List.replicate 192 5 ++ [])⟩ =
      .ok (List.replicate 192 5) ⟨[]⟩ ∧
    get_varlen_bytes ⟨255 :: 0 :: 0 :: 0 :: 2 :: ([6, 6] ++ [4])⟩ =
      .ok [6, 6] ⟨[4]⟩ ∧
    get_varlen_bytes ⟨224 :: [9]⟩ = .err .PartialLength ⟨[9]⟩ ∧
    get_varlen_bytes ⟨[200]⟩ = .err .PrematureEOF ⟨[]⟩ ∧
    get_varlen_bytes ⟨255 :: [1, 2]⟩ = .err .PrematureEOF ⟨[1, 2]⟩ ∧
    get_varlen_bytes ⟨10 :: [1, 2]⟩ = .err .PrematureEOF ⟨[1, 2]⟩ :=
  ⟨get_varlen_bytes_spec.1 3 [7, 8, 9] [1] (by decide) (by decide),
   get_varlen_bytes_spec.2.1 192 0 (List.replicate 192 5) []
     (by decide) (by decide) (by rw [List.length_replicate]; decide),
   get_varlen_bytes_spec.2.2.1 0 0 0 2 [6, 6] [4] (by decide),
   get_varlen_bytes_spec.2.2.2.1 224 [9] (by decide) (by decide),
   get_varlen_bytes_spec.2.2.2.2.2.1 200 (by decide) (by decide),
   get_varlen_bytes_spec.2.2.2.2.2.2.1 [1, 2] (by decide),
   get_varlen_bytes_spec.2.2.2.2.2.2.2 10 [1, 2] (by decide) (by decide)⟩

/-- C6: on an exhausted reader `next` succeeds with the clean end-of-stream
result, and that is the only way `next` observes exhaustion without
failing: an `.ok none` result implies the reader held no bytes. -/
theorem next_empty_eos :
    (next ⟨[]⟩ = .ok none ⟨[]⟩) ∧
    (∀ (r r1 : Reader), next r = .ok none r1 → r.data = []) := by
  refine ⟨rfl, ?_⟩
  intro r r1 h
  match hd : r.data with
  | [] => rfl
  | t :: rest =>
    exfalso
    simp only [next, Reader.maybe_byte, hd] at h
    by_cases h80 : t &&& 128 = 0
    · simp [h80] at h
    · simp only [h80, if_false] at h
      cases hb : (if t &&& 64 = 0
                  then oldFormatBody t ⟨rest⟩
                  else newFormatBody t ⟨rest⟩) with
      | err e r2 => simp [hb] at h
      | ok p r2 =>
        simp only [hb] at h
        by_cases ht : p.tag ≠ 0
        · simp [ht] at h
        · simp [ht] at h

/-- Witness for C6: the implication applied at the empty reader. -/
theorem next_empty_eos_witness : (Reader.mk []).data = [] :=
  next_empty_eos.2 ⟨[]⟩ ⟨[]⟩ next_empty_eos.1

/-- C7 counterexample: the tag byte `0x90` selects a ONE-byte old-format
length field (`0x90 &&& 3 = 0`), so `[0x90, 0x00, 0x05, 1, 2, 3, 4, 5]`
decodes to a packet with empty contents (length byte `0x00`), leaving
`[0x05, 1, 2, 3, 4, 5]` unconsumed - not to a packet whose contents are
the five bytes, as the claim states. -/
theorem decode_0x90_counterexample :
    next ⟨[0x90, 0x00, 0x05, 1, 2, 3, 4, 5]⟩ =
      .ok (some ⟨4, []⟩) ⟨[0x05, 1, 2, 3, 4, 5]⟩ ∧
    (([] : List Nat) ≠ [1, 2, 3, 4, 5]) := by
  exact ⟨by decide, by decide⟩

/-- C7 amended: the old-format tag byte with tag bits `0100` and the
TWO-byte length selector is `0x91` (`0x91 &&& 3 = 1`), and for any five
content bytes, `[0x91, 0x00, 0x05]` followed by those bytes decodes to a
packet with tag 4 whose contents are exactly those five bytes. -/
theorem decode_0x91_two_byte (b1 b2 b3 b4 b5 : Nat) :
    next ⟨[0x91, 0x00, 0x05, b1, b2, b3, b4, b5]⟩ =
      .ok (some ⟨4, [b1, b2, b3, b4, b5]⟩) ⟨[]⟩ := by
  rfl

/-- C8: `serialize` hits its assertion (modelled as `none`) exactly when
the content length exceeds `2^32 - 1`; under that bound it returns
normally. -/
theorem serialize_assert_iff (p : Packet) :
    (p.serialize).isSome ↔ p.buffer.length ≤ 2 ^ 32 - 1 := by
  rw [Packet.serialize]
  by_cases h : 2 ^ 32 - 1 < p.buffer.length
  · simp [h]
  · simp [h]

/-- C9: decoding accepts non-canonical new-format length encodings: the
five-byte length field `FF 00 00 00 00` and the canonical one-byte `00`
both decode to Packet{tag=1, content=[]} consuming all their bytes, while
`serialize` of that packet reproduces only the canonical two-byte form, so
encode-after-decode is not the identity on byte streams. -/
theorem non_canonical_length_decode :
    next ⟨[0xC1, 0xFF, 0x00, 0x00, 0x00, 0x00]⟩ = .ok (some ⟨1, []⟩) ⟨[]⟩ ∧
    next ⟨[0xC1, 0x00]⟩ = .ok (some ⟨1, []⟩) ⟨[]⟩ ∧
    Packet.serialize ⟨1, []⟩ = some [0xC1, 0x00] ∧
    (([0xC1, 0xFF, 0x00, 0x00, 0x00, 0x00] : List Nat) ≠ [0xC1, 0x00]) := by
  exact ⟨by decide, by decide, by decide, by decide⟩

/-- C3: for an old-format tag byte (bit 7 set, bit 6 clear), `next` uses
a length-field size of `1 <<< (tagbyte &&& 0b11)` bytes; the 8-byte
selector (`tagbyte &&& 0b11 = 3`) fails with the unsupported-feature
error with only the tag byte consumed, and otherwise that many bytes are
read as an unsigned big-endian length, the tag is
`(tagbyte >>> 2) &&& 0xF`, and exactly that many content bytes are
consumed. -/
theorem next_old_format :
    (∀ (tagbyte : Nat) (rest : List Nat),
      ¬ tagbyte &&& 0x80 = 0 → tagbyte &&& 0x40 = 0 → tagbyte &&& 0b11 = 3 →
      next ⟨tagbyte :: rest⟩ = .err .PartialLength ⟨rest⟩) ∧
    (∀ (tagbyte : Nat) (lenBytes content rest : List Nat),
      ¬ tagbyte &&& 0x80 = 0 → tagbyte &&& 0x40 = 0 → tagbyte &&& 0b11 ≠ 3 →
      lenBytes.length = 1 <<< (tagbyte &&& 0b11) →
      (∀ b ∈ lenBytes, b < 256) →
      content.length = lenBytes.foldl (fun acc b => acc * 256 + b) 0 →
      (tagbyte >>> 2) &&& 0xF ≠ 0 →
      next ⟨tagbyte :: (lenBytes ++ (content ++ rest))⟩ =
        .ok (some ⟨(tagbyte >>> 2) &&& 0xF, content⟩) ⟨rest⟩) := by
  constructor
  · intro tagbyte rest h80 h40 h3
    rw [next_cons tagbyte rest h80, if_pos h40,
      oldBody_partial tagbyte ⟨rest⟩ h3]
  · intro tagbyte lenBytes content rest h80 h40 h3 hlen hbytes hcontent htag
    rw [next_cons _ _ h80, if_pos h40,
      oldBody_ok tagbyte lenBytes content rest h3 hlen hbytes hcontent]
    have hcomm : 0xF &&& (tagbyte >>> 2) = (tagbyte >>> 2) &&& 0xF :=
      Nat.and_comm _ _
    simp only [hcomm]
    simp [htag]

/-- Witness for C3: the 8-byte selector rejection and a successful
1-length-byte old-format decode, at concrete inputs. -/
theorem next_old_format_witness :
    next ⟨[0x83, 1, 2]⟩ = .err .PartialLength ⟨[1, 2]⟩ ∧
    next ⟨0x90 :: ([2] ++ ([9, 9] ++ [5]))⟩ =
      .ok (some ⟨(0x90 >>> 2) &&& 0xF, [9, 9]⟩) ⟨[5]⟩ :=
  ⟨next_old_format.1 0x83 [1, 2] (by decide) (by decide) (by decide),
   next_old_format.2 0x90 [2] [9, 9] [5] (by decide) (by decide) (by decide)
     (by decide) (by decide) (by decide) (by decide)⟩

/-- C5: `next` never returns a packet with tag 0: a successfully decoded
packet has `tag ≠ 0` and `tag &&& 0x3F ≠ 0`, and in both format paths a
decoded tag of 0 makes `next` fail with the bad-tag error. -/
theorem next_tag_nonzero :
    (∀ (r r1 : Reader) (p : Packet), next r = .ok (some p) r1 →
      p.tag ≠ 0 ∧ p.tag &&& 0x3F ≠ 0) ∧
    (∀ (tagbyte : Nat) (data : List Nat) (r1 : Reader) (p : Packet),
      ¬ tagbyte &&& 0x80 = 0 →
      (if tagbyte &&& 0x40 = 0
       then oldFormatBody tagbyte ⟨data⟩
       else newFormatBody tagbyte ⟨data⟩) = .ok p r1 →
      p.tag = 0 →
      next ⟨tagbyte :: data⟩ = .err .BadTag r1) := by
  constructor
  · intro r r1 p h
    obtain ⟨data⟩ := r
    cases data with
    | nil => simp [next, Reader.maybe_byte] at h
    | cons t rest =>
      by_cases h80 : t &&& 0x80 = 0
      · simp [next, Reader.maybe_byte, h80] at h
      · rw [next_cons t rest h80] at h
        cases hb : (if t &&& 0x40 = 0
                    then oldFormatBody t ⟨rest⟩
                    else newFormatBody t ⟨rest⟩) with
        | err e r2 => rw [hb] at h; simp at h
        | ok q r2 =>
          rw [hb] at h
          by_cases ht : q.tag ≠ 0
          · dsimp only at h
            rw [if_pos ht] at h
            injection h with h1 h2
            injection h1 with h1
            have hle : p.tag ≤ 63 := by
              refine body_tag_le t ⟨rest⟩ r2 p ?_
              rw [hb, h1]
            rw [h1] at ht
            exact ⟨ht, by rwa [and63_of_lt p.tag (by omega)]⟩
          · dsimp only at h
            rw [if_neg ht] at h
            exact absurd h (by simp)
  · intro tagbyte data r1 p h80 hb ht0
    rw [next_cons tagbyte data h80, hb]
    simp [ht0]

/-- Witness for C5: both parts applied to concrete streams. -/
theorem next_tag_nonzero_witness :
    ((Packet.mk 1 []).tag ≠ 0 ∧ (Packet.mk 1 []).tag &&& 0x3F ≠ 0) ∧
    next ⟨[0xC0, 0x00]⟩ = .err .BadTag ⟨[]⟩ :=
  ⟨next_tag_nonzero.1 ⟨[0xC1, 0x00]⟩ ⟨[]⟩ ⟨1, []⟩ (by decide),
   next_tag_nonzero.2 0xC0 [0x00] ⟨[]⟩ ⟨0, []⟩ (by decide) (by decide) rfl⟩

/-- C10: the bad-tag failure is reported only after the whole packet is
consumed: for an old-format tag byte with tag bits 0000 and a well-formed
length field, and for the new-format tag byte `0xC0` with any length
field `get_varlen_bytes` accepts, `next` fails with the bad-tag error
with the reader advanced past the tag byte, the length field, and all
declared content bytes. -/
theorem badtag_after_full_consumption :
    (∀ (c : Nat) (lenBytes content rest : List Nat), c < 3 →
      lenBytes.length = 1 <<< c → (∀ b ∈ lenBytes, b < 256) →
      content.length = lenBytes.foldl (fun acc b => acc * 256 + b) 0 →
      next ⟨(0x80 + c) :: (lenBytes ++ (content ++ rest))⟩ =
        .err .BadTag ⟨rest⟩) ∧
    (∀ (v content : List Nat) (r1 : Reader),
      get_varlen_bytes ⟨v⟩ = .ok content r1 →
      next ⟨0xC0 :: v⟩ = .err .BadTag r1) := by
  constructor
  · intro c lenBytes content rest hc hlen hbytes hcontent
    have hall : ∀ c < 3, ¬ (0x80 + c) &&& 0x80 = 0 ∧
        (0x80 + c) &&& 0x40 = 0 ∧ (0x80 + c) &&& 0b11 = c ∧
        (0x80 + c) &&& 0b11 ≠ 3 ∧ 0xF &&& ((0x80 + c) >>> 2) = 0 := by
      decide
    obtain ⟨h80, h40, hc3, hne3, htag0⟩ := hall c hc
    rw [next_cons _ _ h80, if_pos h40,
      oldBody_ok (0x80 + c) lenBytes content rest hne3
        (by rw [hc3]; exact hlen) hbytes hcontent]
    simp [htag0]
  · intro v content r1 hv
    have h80 : ¬ (0xC0 : Nat) &&& 0x80 = 0 := by decide
    have h40 : ¬ (0xC0 : Nat) &&& 0x40 = 0 := by decide
    have htag0 : (0xC0 : Nat) &&& 0x3F = 0 := by decide
    rw [next_cons _ _ h80, if_neg h40]
    simp only [newFormatBody, hv]
    simp [htag0]

/-- Witness for C10: bad-tag reported with the reader past the packet, in
both formats, at concrete inputs. -/
theorem badtag_after_full_consumption_witness :
    next ⟨(0x80 + 0) :: ([1] ++ ([9] ++ [7]))⟩ = .err .BadTag ⟨[7]⟩ ∧
    next ⟨[0xC0, 2, 8, 8]⟩ = .err .BadTag ⟨[]⟩ :=
  ⟨badtag_after_full_consumption.1 0 [1] [9] [7] (by decide) (by decide)
     (by decide) (by decide),
   badtag_after_full_consumption.2 [2, 8, 8] [8, 8] ⟨[]⟩ (by decide)⟩

/-- Successful `serialize`, written with the `as u8` casts of the source
(`% 256`): under the 32-bit bound the result is the header followed by
the content. -/
lemma serialize_some (t : Nat) (content : List Nat)
    (h : content.length ≤ 2 ^ 32 - 1) :
    Packet.serialize ⟨t, content⟩ = some (
      (if content.length ≤ 191 then
        [t ||| 0xC0, content.length % 256]
      else if content.length ≤ 8383 then
        [t ||| 0xC0, (((content.length - 192) >>> 8) % 256 + 192) % 256,
         (content.length - 192) % 256]
      else
        [t ||| 0xC0, 0xFF, (content.length >>> 24) % 256,
         (content.length >>> 16) % 256, (content.length >>> 8) % 256,
         content.length % 256]) ++ content) := by
  have hg : ¬ 2 ^ 32 - 1 < content.length := by omega
  simp only [Packet.serialize, if_neg hg]

/-- C4: `serialize` emits the header byte `tag ||| 0b1100_0000`, then a
length field chosen by the content length `L` - one byte `L` for
0-191, two bytes `((L-192)>>>8)+192` and `(L-192) &&& 0xFF` for
192-8383, and five bytes `0xFF` plus `L` as 4 big-endian bytes for
8384 up to `2^32-1` - followed by the content verbatim. -/
theorem serialize_layout (t : Nat) (content : List Nat)
    (h : content.length ≤ 2 ^ 32 - 1) :
    Packet.serialize ⟨t, content⟩ = some (
      (if content.length ≤ 191 then
        [t ||| 0xC0, content.length]
      else if content.length ≤ 8383 then
        [t ||| 0xC0, ((content.length - 192) >>> 8) + 192,
         (content.length - 192) &&& 0xFF]
      else
        [t ||| 0xC0, 0xFF, content.length >>> 24,
         (content.length >>> 16) &&& 0xFF, (content.length >>> 8) &&& 0xFF,
         content.length &&& 0xFF]) ++ content) := by
  rw [serialize_some t content h]
  by_cases h1 : content.length ≤ 191
  · simp only [if_pos h1]
    rw [Nat.mod_eq_of_lt (show content.length < 256 by omega)]
  · by_cases h2 : content.length ≤ 8383
    · simp only [if_neg h1, if_pos h2]
      have e1 : (((content.length - 192) >>> 8) % 256 + 192) % 256 =
          ((content.length - 192) >>> 8) + 192 := by
        rw [shiftRight8_eq]; omega
      have e2 : (content.length - 192) % 256 =
          (content.length - 192) &&& 0xFF :=
        (and255_eq_mod _).symm
      rw [e1, e2]
    · simp only [if_neg h1, if_neg h2]
      have e0 : (content.length >>> 24) % 256 = content.length >>> 24 := by
        rw [shiftRight24_eq]; omega
      rw [e0, (and255_eq_mod (content.length >>> 16)).symm,
        (and255_eq_mod (content.length >>> 8)).symm,
        (and255_eq_mod content.length).symm]

/-- Witness for C4: the encoder layout at a concrete packet. -/
theorem serialize_layout_witness :
    Packet.serialize ⟨7, [0x61]⟩ = some [0xC7, 1, 0x61] := by
  have h := serialize_layout 7 [0x61] (by decide)
  simpa using h

/-- C1: for every tag in [1,63] and every content of length at most
`2^32 - 1`, decoding the serialized bytes returns exactly the packet back
and consumes exactly the serialized length, leaving whatever followed. -/
theorem serialize_next_roundtrip (t : Nat) (content rest : List Nat)
    (h1 : 1 ≤ t) (h2 : t ≤ 63) (hlen : content.length ≤ 2 ^ 32 - 1) :
    ∃ s, Packet.serialize ⟨t, content⟩ = some s ∧
      next ⟨s ++ rest⟩ = .ok (some ⟨t, content⟩) ⟨rest⟩ := by
  refine ⟨_, serialize_some t content hlen, ?_⟩
  have hbits := (show ∀ u < 64,
      (¬ (u ||| 192) &&& 128 = 0) ∧ (¬ (u ||| 192) &&& 64 = 0) ∧
      (u ||| 192) &&& 63 = u by decide) t (by omega)
  obtain ⟨h80, h40, h63⟩ := hbits
  have htne : t ≠ 0 := by omega
  by_cases hc1 : content.length ≤ 191
  · have hmod : content.length % 256 = content.length :=
      Nat.mod_eq_of_lt (by omega)
    simp only [if_pos hc1, hmod, List.cons_append, List.nil_append]
    rw [next_cons _ _ h80, if_neg h40]
    simp only [newFormatBody, gv_ok_one content.length content rest hc1 rfl,
      h63]
    simp [htne]
  · by_cases hc2 : content.length ≤ 8383
    · have hk1 : (((content.length - 192) >>> 8) % 256 + 192) % 256 =
          (content.length - 192) / 256 + 192 := by
        rw [shiftRight8_eq]; omega
      simp only [if_neg hc1, if_pos hc2, List.cons_append, List.nil_append]
      rw [hk1, next_cons _ _ h80, if_neg h40]
      have hgv := gv_ok_two ((content.length - 192) / 256 + 192)
        ((content.length - 192) % 256) content rest
        (by omega) (by omega) (by rw [shiftLeft8_eq]; omega)
      simp only [newFormatBody, hgv, h63]
      simp [htne]
    · simp only [if_neg hc1, if_neg hc2, List.cons_append, List.nil_append]
      rw [next_cons _ _ h80, if_neg h40]
      have hgv := gv_ok_five ((content.length >>> 24) % 256)
        ((content.length >>> 16) % 256) ((content.length >>> 8) % 256)
        (content.length % 256) content rest
        (by rw [shiftRight24_eq, shiftRight16_eq, shiftRight8_eq]; omega)
      simp only [newFormatBody, hgv, h63]
      simp [htne]

/-- Witness for C1: round-trip at a concrete packet. -/
theorem serialize_next_roundtrip_witness :
    ∃ s, Packet.serialize ⟨1, [0x61]⟩ = some s ∧
      next ⟨s ++ [9]⟩ = .ok (some ⟨1, [0x61]⟩) ⟨[9]⟩ :=
  serialize_next_roundtrip 1 [0x61] [9] (by decide) (by decide) (by decide)

end OpenPGP
